import Mathlib

/-!
A verification development for the minima incremental indexer and its
retrieval agent loop.

The Python sources are shallowly embedded as pure Lean functions:

* `indexer/storage.py` — the SQLite-backed `MinimaStore` becomes a pure
  association list of `MinimaDoc` records; each static method becomes a
  function from store to store (plus its return value).  Exceptions raised
  and caught inside a method are modelled by an explicit failure-injection
  parameter (`FailPoint`).
* `indexer/indexer.py` — the `Indexer` becomes a state-transition function
  over a `World` (SQLite store, qdrant collections, cached
  `document_stores` pool map).  External capabilities (document loaders,
  embeddings, similarity scoring) are parameters.
* `llm/openai_chain.py` — the langgraph agent loop becomes a recursive
  function over a message list, with the chat model abstracted as an
  oracle of successive assistant responses and the retriever abstracted as
  a fallible function; tool-result content is kept structured (the
  formatter emits `[Document i - path]` blocks, and the link extractor
  recovers exactly the paths of those blocks).

Python strings are Lean `String`s; character-level operations are defined
on `List Char` (a Python `str` is a sequence of characters) and lifted.
-/

namespace Minima

/-! ## storage.py: data model -/

/-- `IndexingStatus` from `indexer/storage.py`. -/
inductive IndexingStatus
  | new_file
  | need_reindexing
  | no_need_reindexing
deriving DecidableEq, Repr

/-- `MinimaDoc` from `indexer/storage.py`: one row of the SQLite table,
keyed by `fpath`.  `last_updated_seconds` is `int | None` in the source,
hence `Option Int`; durations are modelled as rationals. -/
structure MinimaDoc where
  fpath : String
  last_updated_seconds : Option Int := none
  indexing_time_seconds : Option Rat := none
  status : String := "uploaded"
deriving DecidableEq, Repr

/-- `session.exec(select(MinimaDoc).where(MinimaDoc.fpath == fpath)).first()`:
the row for a path, if any. -/
def selectDoc (store : List MinimaDoc) (fpath : String) : Option MinimaDoc :=
  store.find? (fun d => d.fpath == fpath)

/-- Failure injection for the `try`/`except` block of
`MinimaStore.check_needs_indexing`: the persistence layer may raise while
executing the select, or while committing a write; `noFail` is the normal
run. -/
inductive FailPoint
  | noFail
  | atSelect
  | atCommit
deriving DecidableEq, Repr

/-- `MinimaStore.check_needs_indexing` from `indexer/storage.py`, with the
failure-injection point made explicit.  Any exception inside the session is
caught by the `except` clause, which logs and returns
`IndexingStatus.no_need_reindexing`; a failed commit leaves the store
unchanged (transaction rollback).  A stored `None` timestamp would make the
Python comparison `doc.last_updated_seconds < last_updated_seconds` raise a
`TypeError`, which the same `except` clause turns into
`no_need_reindexing`. -/
def check_needs_indexing_at (failAt : FailPoint) (store : List MinimaDoc)
    (fpath : String) (last_updated_seconds : Int) :
    List MinimaDoc × IndexingStatus :=
  match failAt with
  | .atSelect => (store, .no_need_reindexing)
  | _ =>
    match selectDoc store fpath with
    | some doc =>
      match doc.last_updated_seconds with
      | none => (store, .no_need_reindexing)
      | some stored =>
        if stored < last_updated_seconds then
          match failAt with
          | .atCommit => (store, .no_need_reindexing)
          | _ =>
            (store.map (fun d =>
               if d.fpath == fpath then
                 { d with last_updated_seconds := some last_updated_seconds }
               else d),
             .need_reindexing)
        else
          (store, .no_need_reindexing)
    | none =>
      match failAt with
      | .atCommit => (store, .no_need_reindexing)
      | _ =>
        (store ++ [{ fpath := fpath,
                     last_updated_seconds := some last_updated_seconds }],
         .new_file)

/-- `MinimaStore.check_needs_indexing` on a run where the persistence layer
does not fail. -/
def check_needs_indexing (store : List MinimaDoc) (fpath : String)
    (last_updated_seconds : Int) : List MinimaDoc × IndexingStatus :=
  check_needs_indexing_at .noFail store fpath last_updated_seconds

/-- `MinimaStore.delete_m_doc` from `indexer/storage.py`: remove the row
for a path. -/
def delete_m_doc (store : List MinimaDoc) (fpath : String) : List MinimaDoc :=
  store.filter (fun d => !(d.fpath == fpath))

/-- `MinimaStore.find_removed_files` from `indexer/storage.py`: collect
every stored path absent from `existing_file_paths`, then delete each
collected path's row; returns the updated store and the collected list. -/
def find_removed_files (store : List MinimaDoc)
    (existing_file_paths : List String) : List MinimaDoc × List String :=
  let removed_files :=
    (store.filter (fun d => !(existing_file_paths.contains d.fpath))).map
      (fun d => d.fpath)
  (removed_files.foldl (fun s p => delete_m_doc s p) store, removed_files)

/-! ## indexer.py: pool routing -/

/-- `Indexer._poolname_from_file_path` from `indexer/indexer.py`, at the
character-list level.  `file_path[len(CONTAINER_PATH):]` drops the first
`len` characters, `.lstrip("/")` drops leading slashes, `'/' in s` tests
membership, and `s.split("/")[0]` is the longest slash-free initial
segment.  The final guard maps an empty pool name to `'default'`. -/
def poolnameOfChars (container_path file_path : List Char) : List Char :=
  let clean_pn := (file_path.drop container_path.length).dropWhile (· == '/')
  let pn :=
    if '/' ∈ clean_pn then clean_pn.takeWhile (fun c => c ≠ '/')
    else "default".data
  if pn = [] then "default".data else pn

/-- `Indexer._poolname_from_file_path` on Python strings. -/
def poolname_from_file_path (container_path file_path : String) : String :=
  ⟨poolnameOfChars container_path.data file_path.data⟩

/-! ## indexer.py: the indexer as a state-transition system

The `Indexer`'s mutable surroundings are: the SQLite store (`MinimaStore`),
the qdrant collections (a name-to-chunk-list map), and the lazily
populated `document_stores` pool cache (`StorageDict`).  A chunk carries
the `metadata['file_path']` tag set by `_process_file` and its page
content. -/

/-- One embedded document chunk living in a qdrant collection. -/
structure Chunk where
  file_path : String
  content : String
deriving DecidableEq, Repr

/-- The indexer's world: SQLite rows, qdrant collections (in creation
order), and the keys of the `document_stores` cache (in insertion
order). -/
structure World where
  store : List MinimaDoc := []
  collections : List (String × List Chunk) := []
  cached : List String := []
deriving DecidableEq, Repr

/-- `qdrant.collection_exists`. -/
def collection_exists (collections : List (String × List Chunk))
    (name : String) : Bool :=
  (collections.find? (fun c => c.1 == name)).isSome

/-- The chunks of a collection (empty if absent). -/
def collChunks (collections : List (String × List Chunk))
    (name : String) : List Chunk :=
  ((collections.find? (fun c => c.1 == name)).map (fun c => c.2)).getD []

/-- Replace the chunk list of one collection. -/
def collSet (collections : List (String × List Chunk)) (name : String)
    (chunks : List Chunk) : List (String × List Chunk) :=
  collections.map (fun c => if c.1 == name then (c.1, chunks) else c)

/-- `Indexer._setup_collection` reached through the `StorageDict` miss
handler: create the qdrant collection if absent, then cache the pool's
`QdrantVectorStore` under its name.  A hit in `document_stores` does
nothing. -/
def ensure_pool (w : World) (pool : String) : World :=
  if w.cached.contains pool then w
  else
    { w with
      collections :=
        if collection_exists w.collections pool then w.collections
        else w.collections ++ [(pool, [])],
      cached := w.cached ++ [pool] }

/-- `qdrant.delete` with `Filter(must=[FieldCondition(key="metadata.file_path",
match=MatchValue(value=f)) for f in paths])`: a point is deleted iff it
satisfies **all** conditions, i.e. its `file_path` equals every listed
path. -/
def qdrant_delete_must (collections : List (String × List Chunk))
    (name : String) (paths : List String) : List (String × List Chunk) :=
  collSet collections name
    ((collChunks collections name).filter
      (fun c => !(paths.all (fun p => c.file_path == p))))

/-- `Indexer.remove_from_storage` from `indexer/indexer.py`: for every pool
in `document_stores.keys()`, select the files routed to that pool and, when
the selection is non-empty, issue a filtered qdrant delete for the pool's
collection. -/
def remove_from_storage (container_path : String) (w : World)
    (files_to_remove : List String) : World :=
  w.cached.foldl
    (fun w' poolname =>
      let pool_files_to_remove :=
        files_to_remove.filter
          (fun fpath => poolname_from_file_path container_path fpath == poolname)
      if pool_files_to_remove.isEmpty then w'
      else
        { w' with
          collections :=
            qdrant_delete_must w'.collections poolname pool_files_to_remove })
    w

/-- `Indexer.index` from `indexer/indexer.py`.  External effects are
parameters: `supported` is whether `_create_loader` finds a loader for the
file's extension (it raises `ValueError` otherwise, caught by `index`'s
`try`), and `loadResult` is the outcome of
`loader.load_and_split(text_splitter)` — an exception (caught inside
`_process_file`, which then returns `[]`) or the list of chunk contents.
`_process_file` tags every chunk with `metadata['file_path'] = path` and
appends the chunks to the pool's collection via `add_documents`.  Elapsed
wall time is measured and logged only; neither
`MinimaStore.update_indexing_time` nor `MinimaStore.update_file_status` is
called anywhere in `index`. -/
def index (container_path : String) (supported : Bool)
    (loadResult : Except Unit (List String)) (w : World)
    (path : String) (last_updated_seconds : Int) : World :=
  let poolname := poolname_from_file_path container_path path
  let w1 := ensure_pool w poolname
  let checked := check_needs_indexing w1.store path last_updated_seconds
  let w2 := { w1 with store := checked.1 }
  if checked.2 = .no_need_reindexing then w2
  else
    let w3 :=
      if checked.2 = .need_reindexing then
        remove_from_storage container_path w2 [path]
      else w2
    if !supported then w3
    else
      match loadResult with
      | .error _ => w3
      | .ok contents =>
        if contents.isEmpty then w3
        else
          { w3 with
            collections :=
              collSet w3.collections poolname
                (collChunks w3.collections poolname ++
                  contents.map (fun c => { file_path := path, content := c })) }

/-- `Indexer.purge` from `indexer/indexer.py`: ask the store for the paths
that no longer exist, and if any, remove them from the vector storage. -/
def purge (container_path : String) (w : World)
    (existing_file_paths : List String) : World :=
  let found := find_removed_files w.store existing_file_paths
  let w1 := { w with store := found.1 }
  if found.2.length > 0 then remove_from_storage container_path w1 found.2
  else w1

/-! ## indexer.py: similarity search -/

/-- Fixed constants of `Config` in `indexer/indexer.py`. -/
def TOP_K : Nat := 20

/-- `Config.SCORE_THRESHOLD` in `indexer/indexer.py`: the value `0.5`. -/
def SCORE_THRESHOLD : Rat := mkRat 1 2

/-- Descending-score ordering on chunks, for a fixed query scoring
function. -/
def byScoreDesc (score : Chunk → Rat) : Chunk → Chunk → Prop :=
  fun a b => score b ≤ score a

instance (score : Chunk → Rat) : DecidableRel (byScoreDesc score) :=
  fun a b => inferInstanceAs (Decidable (score b ≤ score a))

instance (score : Chunk → Rat) : IsTotal Chunk (byScoreDesc score) :=
  ⟨fun a b => le_total (score b) (score a)⟩

instance (score : Chunk → Rat) : IsTrans Chunk (byScoreDesc score) :=
  ⟨fun _ _ _ hab hbc => le_trans hbc hab⟩

/-- Modelled from the spec: the similarity-search capability
`QdrantVectorStore.search(query, search_type="similarity", k=...,
score_threshold=...)` invoked by `Indexer.find` is external library code
(langchain/qdrant), not part of this repository's sources.  Per §4.3 it
"returns only hits at or above `scoreThreshold`, at most `topK`, ordered by
descending score": every chunk of the collection is scored against the
query, hits below the threshold are dropped, the rest are sorted by
descending score and truncated to `k`. -/
def vector_search (score : Chunk → Rat) (chunks : List Chunk) (k : Nat)
    (score_threshold : Rat) : List Chunk :=
  (((chunks.filter (fun c => score_threshold ≤ score c)).insertionSort
      (byScoreDesc score)).take k)

/-- Python `str.replace` on character lists, with explicit structural fuel
(one unit per character consumed; empty patterns are degenerate in the
model and leave the string unchanged). -/
def replaceChars : Nat → List Char → List Char → List Char → List Char
  | 0, s, _, _ => s
  | _ + 1, [], _, _ => []
  | fuel + 1, c :: rest, pat, rep =>
    if pat ≠ [] ∧ pat.isPrefixOf (c :: rest) then
      rep ++ replaceChars fuel ((c :: rest).drop pat.length) pat rep
    else c :: replaceChars fuel rest pat rep

/-- Python `s.replace(pattern, replacement)` (all occurrences). -/
def pyReplace (s pattern replacement : String) : String :=
  ⟨replaceChars s.data.length s.data pattern.data replacement.data⟩

/-- The dictionary returned by `Indexer.find`: either `{"error": msg}` or
`{"links": links, "output": output}`.  The Python `links` set is modelled
as a duplicate-free list in insertion order. -/
inductive FindResult
  | err (msg : String)
  | ok (links : List String) (output : String)
deriving DecidableEq, Repr

/-- Deduplicating insertion, modelling Python `set.add`. -/
def setAdd (links : List String) (l : String) : List String :=
  if links.contains l then links else links ++ [l]

/-- `Indexer.find` from `indexer/indexer.py`.  `score` abstracts the
embedding of the query and cosine similarity; `searchFails` is whether the
external search call raises (caught by the `except`, which returns the
error dictionary with a non-interpolated `"{pool}"` placeholder — the
source string lacks the `f` prefix).  Returns the updated world (a miss in
`document_stores` for an existing collection caches it) and the result
dictionary. -/
def find (container_path local_files_path : String) (score : Chunk → Rat)
    (searchFails : Bool) (w : World) (pool : String) :
    World × FindResult :=
  if !(w.cached.contains pool) ∧ !(collection_exists w.collections pool) then
    (w, .err ("Unable to find anything for the given query in pool " ++ pool ++
        ". The pool does not exist."))
  else
    let w' := if w.cached.contains pool then w else ensure_pool w pool
    if searchFails then
      (w', .err "Unable to find anything for the given query in pool \x7bpool\x7d")
    else
      let found := vector_search score (collChunks w'.collections pool)
        TOP_K SCORE_THRESHOLD
      if found.isEmpty then (w', .ok [] "")
      else
        let links := found.foldl
          (fun ls item =>
            setAdd ls ("file://" ++
              pyReplace item.file_path container_path local_files_path))
          []
        let results := found.map (fun item => item.content)
        (w', .ok links (String.intercalate ".\n\n\n " results))

/-! ## llm/openai_chain.py: the tool-calling retrieval agent loop

The langgraph state machine (`agent` node, `tools` node, conditional edge
to `__end__`) becomes a recursive run function.  The chat capability is an
oracle: the list of assistant responses it will produce, in order.  The
retriever capability is a fallible function from query to documents. -/

/-- One tool call requested by an assistant message; `args` is the
`query` argument of `search_documents`. -/
structure ToolCall where
  name : String
  args : String
  id : String
deriving DecidableEq, Repr

/-- A document returned by the retriever, as used by the tool:
`metadata.get("file_path", "Unknown")` and `page_content`. -/
structure RDoc where
  file_path : Option String
  page_content : String
deriving DecidableEq, Repr

/-- The content of a tool-result message, kept structured: either a plain
string, or the formatted result list whose rendering is the concatenation
of `[Document i - path]\n{content}\n` blocks (one triple per block). -/
inductive ToolContent
  | text (s : String)
  | formatted (docs : List (Nat × String × String))
deriving DecidableEq, Repr

/-- A message of the langgraph state. `toolMsg` carries the `name`
attribute of the underlying `ToolMessage`, which defaults to `None` when
not passed to the constructor. -/
inductive Msg
  | human (content : String)
  | ai (content : String) (tool_calls : List ToolCall)
  | toolMsg (content : ToolContent) (tool_call_id : String)
      (name : Option String)
deriving DecidableEq, Repr

/-- The `search_documents` tool body from
`OpenAIChain._create_search_tool`, as a function of the retriever's
outcome: a retriever exception propagates (there is no `try` in the tool);
zero hits yield the literal string; otherwise the numbered, path-annotated
result list. -/
def search_documents (docs : Except Unit (List RDoc)) :
    Except Unit ToolContent :=
  match docs with
  | .error e => .error e
  | .ok [] => .ok (.text "No relevant documents found.")
  | .ok ds =>
    .ok (.formatted ((ds.enumFrom 1).map
      (fun d => (d.1, d.2.file_path.getD "Unknown", d.2.page_content))))

/-- `OpenAIChain._execute_tools`: read the tool calls of the last message
(empty when the attribute is missing), execute `search_documents` for each
call so named, and collect one `ToolMessage(content=result,
tool_call_id=tool_id)` per executed call — note that no `name` is passed,
so the created message's `name` is `none`.  A tool exception propagates
out of the node. -/
def execute_tools (retrieve : String → Except Unit (List RDoc))
    (messages : List Msg) : Except Unit (List Msg) :=
  let tool_calls :=
    match messages.getLast? with
    | some (.ai _ tcs) => tcs
    | _ => []
  tool_calls.foldlM
    (fun acc tc =>
      if tc.name == "search_documents" then
        match search_documents (retrieve tc.args) with
        | .error e => .error e
        | .ok content => .ok (acc ++ [Msg.toolMsg content tc.id none])
      else .ok acc)
    []

/-- The two targets of the conditional edge out of the `agent` node. -/
inductive NextNode
  | toTools
  | toEnd
deriving DecidableEq, Repr

/-- `OpenAIChain._should_continue`: go to the `tools` node iff the last
message has a non-empty `tool_calls` attribute. -/
def should_continue (messages : List Msg) : NextNode :=
  match messages.getLast? with
  | some (.ai _ (_ :: _)) => .toTools
  | _ => .toEnd

/-- The compiled graph of `OpenAIChain._create_graph`, run against an
oracle of assistant responses: `agent` appends the next response, the
conditional edge consults `should_continue`, the `tools` node appends its
tool-result messages and loops back to `agent`.  (The system prompt is
prepended to the chat capability's input inside `_call_agent` but never
added to the graph state.) -/
def run_agent_loop (retrieve : String → Except Unit (List RDoc)) :
    List (String × List ToolCall) → List Msg → Except Unit (List Msg)
  | [], messages => .ok messages
  | (content, tool_calls) :: rest, messages =>
    let messages' := messages ++ [Msg.ai content tool_calls]
    match should_continue messages' with
    | .toEnd => .ok messages'
    | .toTools =>
      match execute_tools retrieve messages' with
      | .error e => .error e
      | .ok toolMsgs => run_agent_loop retrieve rest (messages' ++ toolMsgs)

/-- The answer-extraction loop of `OpenAIChain.invoke`: scanning the
messages in reverse, the first branch (`not hasattr(msg, 'tool_calls')`)
never fires because `AIMessage` always defines the attribute; the `elif`
takes the most recent assistant message whose `tool_calls` is `None` or
empty.  Defaults to the empty string. -/
def extract_answer (messages : List Msg) : String :=
  match messages.reverse.find?
      (fun m => match m with | .ai _ [] => true | _ => false) with
  | some (.ai c _) => c
  | _ => ""

/-- The `name` attribute of a message (`None` unless set on a
`ToolMessage`). -/
def msgName : Msg → Option String
  | .toolMsg _ _ n => n
  | _ => none

/-- The source paths recovered by `re.findall(r'\[Document \d+ - (.+?)\]',
content)` from a tool message's content: one path per formatted block,
none from a plain string. -/
def contentPaths : ToolContent → List String
  | .text _ => []
  | .formatted docs => docs.map (fun d => d.2.1)

/-- The link-extraction loop of `OpenAIChain.invoke`: for every message
whose `name` attribute equals `"search_documents"`, parse the source paths
out of its content, rewrite the container path prefix to the local one,
and add a `file://` URI to the link set. -/
def extract_links (container_path local_files_path : String)
    (messages : List Msg) : List String :=
  messages.foldl
    (fun links msg =>
      match msg with
      | .toolMsg content _ (some n) =>
        if n == "search_documents" then
          (contentPaths content).foldl
            (fun ls m =>
              setAdd ls ("file://" ++
                pyReplace m container_path local_files_path))
            links
        else links
      | _ => links)
    []

/-- The dictionary returned by `OpenAIChain.invoke`: the answer and links
on success, or the `{"error": ..., "status": "error"}` dictionary produced
by the top-level `except`. -/
inductive InvokeResult
  | ok (answer : String) (links : List String)
  | err
deriving DecidableEq, Repr

/-- `OpenAIChain.invoke`: seed the graph with the user's message, run it,
then extract the answer and the link set; any exception escaping the graph
is caught and turned into the error dictionary. -/
def invoke (container_path local_files_path : String)
    (retrieve : String → Except Unit (List RDoc))
    (responses : List (String × List ToolCall)) (message : String) :
    InvokeResult :=
  match run_agent_loop retrieve responses [Msg.human message] with
  | .error _ => .err
  | .ok messages =>
    .ok (extract_answer messages)
      (extract_links container_path local_files_path messages)

/-! ## Definitions used by claim statements and witnesses -/

/-- Iterated `check_needs_indexing` calls for one path: the final store
and the list of returned statuses, in call order. -/
def run_checks (fpath : String) :
    List MinimaDoc → List Int → List MinimaDoc × List IndexingStatus
  | store, [] => (store, [])
  | store, ts :: rest =>
    let c := check_needs_indexing store fpath ts
    let r := run_checks fpath c.1 rest
    (r.1, c.2 :: r.2)

/-- The claim's trigger condition: a `NewFile`/`NeedsReindex` result occurs
iff the submitted timestamp is strictly greater than the last stored
timestamp (vacuously when no record exists yet). -/
def specTrigHead : Option Int → Int → Bool
  | none, _ => true
  | some t, ts => decide (t < ts)

/-- The claim's reference trace over a sequence of submitted timestamps:
at each step the trigger condition against the last stored timestamp,
which advances to the submitted value exactly on a trigger. -/
def specTriggers : Option Int → List Int → List Bool
  | _, [] => []
  | o, ts :: rest =>
    specTrigHead o ts ::
      specTriggers (if specTrigHead o ts then some ts else o) rest

/-- The timestamp stored for a path, if a record with one exists. -/
def storedTs (store : List MinimaDoc) (fpath : String) : Option Int :=
  (selectDoc store fpath).bind (fun d => d.last_updated_seconds)

/-- Stores reachable by `check_needs_indexing` alone: any record for the
path carries a timestamp (the method never creates one without). -/
def goodAt (store : List MinimaDoc) (fpath : String) : Prop :=
  ∀ d, selectDoc store fpath = some d → d.last_updated_seconds ≠ none

/-- A concrete scoring function used by the C5 witness. -/
def scoreEx : Chunk → Rat := fun c => if c.content == "hi" then mkRat 9 10 else mkRat 1 5

/-- Concrete chunks used by the C5 witness. -/
def chunksEx : List Chunk :=
  [{ file_path := "p", content := "hi" }, { file_path := "p", content := "lo" },
   { file_path := "q", content := "hi" }]

/-- A retriever that raises on every query. -/
def retrieveFailEx : String → Except Unit (List RDoc) := fun _ => .error ()

/-- A pending `search_documents` tool call. -/
def toolCallEx : ToolCall :=
  { name := "search_documents", args := "budget", id := "1" }

/-- A retriever returning one document below the container path. -/
def retrieveOkEx : String → Except Unit (List RDoc) :=
  fun _ => .ok [{ file_path := some "/usr/local/file/a/docA.txt",
                  page_content := "contents" }]

/-- The world of the C3 failing input: two files of pool `a` indexed, the
pool cached, its collection holding one chunk per file. -/
def purgeWorldEx : World :=
  { store := [{ fpath := "/usr/local/file/a/x.txt",
                last_updated_seconds := some 1 },
              { fpath := "/usr/local/file/a/y.txt",
                last_updated_seconds := some 1 }],
    collections := [("a",
      [{ file_path := "/usr/local/file/a/x.txt", content := "cx" },
       { file_path := "/usr/local/file/a/y.txt", content := "cy" }])],
    cached := ["a"] }

/-! ## Helper lemmas -/

theorem dropWhile_head_not {α} {p : α → Bool} :
    ∀ (l : List α) {x : α} {xs : List α}, l.dropWhile p = x :: xs → p x = false := by
  intro l
  induction l with
  | nil => intro x xs h; simp [List.dropWhile] at h
  | cons a l ih =>
    intro x xs h
    rw [List.dropWhile_cons] at h
    by_cases hpa : p a = true
    · rw [if_pos hpa] at h; exact ih h
    · rw [if_neg hpa] at h
      cases h
      simpa using hpa

theorem selectDoc_append (store l : List MinimaDoc) (fpath : String) :
    selectDoc (store ++ l) fpath =
      (selectDoc store fpath).or (selectDoc l fpath) := by
  simp [selectDoc, List.find?_append]

theorem selectDoc_single (d : MinimaDoc) (fpath : String) :
    selectDoc [d] fpath = if d.fpath = fpath then some d else none := by
  simp [selectDoc, List.find?]
  split <;> simp_all

/-! ## C4: pool routing -/

/-- If the stripped remainder contains a slash, its first slash-free
segment is non-empty (the remainder cannot start with a slash after
`lstrip`). -/
theorem takeWhile_ne_nil_of_mem_dropWhile {l clean : List Char}
    (h : clean = l.dropWhile (· == '/')) (hm : '/' ∈ clean) :
    clean.takeWhile (fun c => c ≠ '/') ≠ [] := by
  obtain ⟨x, xs, hx⟩ := List.exists_cons_of_ne_nil (List.ne_nil_of_mem hm)
  have hx' : List.dropWhile (· == '/') l = x :: xs := by rw [← h]; exact hx
  have hpx := @dropWhile_head_not Char (fun c => c == '/') l x xs hx'
  have hxne : ¬ (x = '/') := by simpa using hpx
  rw [hx, List.takeWhile_cons]
  simp [hxne]

/-- Closed form of `_poolname_from_file_path`: the first slash-free
segment of the stripped remainder when the remainder has a directory
separator, the fixed name `default` otherwise. -/
theorem poolnameOfChars_eq (cp fp : List Char) :
    poolnameOfChars cp fp =
      if '/' ∈ (fp.drop cp.length).dropWhile (· == '/') then
        ((fp.drop cp.length).dropWhile (· == '/')).takeWhile (fun c => c ≠ '/')
      else "default".data := by
  simp only [poolnameOfChars]
  by_cases hm : '/' ∈ (fp.drop cp.length).dropWhile (· == '/')
  · rw [if_pos hm, if_neg (takeWhile_ne_nil_of_mem_dropWhile rfl hm)]
  · rw [if_neg hm, if_neg (by decide : ¬ "default".data = [])]

/-- C4: for a fixed watch root, `_poolname_from_file_path` is a total,
deterministic function of the file path; it strips the watch-root prefix
and returns the first remaining path segment; when the remainder has no
directory component (the file sits directly at the root) it returns the
fixed pool name `default`; it never returns an empty name. -/
theorem poolFor_claims (container_path file_path : String) :
    (∀ p : String, p = file_path →
      poolname_from_file_path container_path p =
        poolname_from_file_path container_path file_path) ∧
    poolname_from_file_path container_path file_path ≠ "" ∧
    ((¬ '/' ∈ (file_path.data.drop container_path.data.length).dropWhile
        (· == '/')) →
      poolname_from_file_path container_path file_path = "default") ∧
    ('/' ∈ (file_path.data.drop container_path.data.length).dropWhile
        (· == '/') →
      (poolname_from_file_path container_path file_path).data =
        ((file_path.data.drop container_path.data.length).dropWhile
          (· == '/')).takeWhile (fun c => c ≠ '/')) := by
  have hchar := poolnameOfChars_eq container_path.data file_path.data
  refine ⟨fun p hp => by rw [hp], ?_, ?_, ?_⟩
  · intro hcon
    have hdata : poolnameOfChars container_path.data file_path.data = [] :=
      congrArg String.data hcon
    rw [hchar] at hdata
    by_cases hm : '/' ∈ (file_path.data.drop container_path.data.length).dropWhile
        (· == '/')
    · rw [if_pos hm] at hdata
      exact takeWhile_ne_nil_of_mem_dropWhile rfl hm hdata
    · rw [if_neg hm] at hdata
      exact (by decide : ¬ "default".data = []) hdata
  · intro hm
    apply String.ext
    show poolnameOfChars container_path.data file_path.data = "default".data
    rw [hchar, if_neg hm]
  · intro hm
    show poolnameOfChars container_path.data file_path.data = _
    rw [hchar, if_pos hm]

/-- Witness for C4 at a concrete path below the watch root. -/
theorem poolFor_claims_witness :
    poolname_from_file_path "/usr/local/file" "/usr/local/file/a/x.txt" ≠ "" ∧
    (poolname_from_file_path "/usr/local/file" "/usr/local/file/a/x.txt").data =
      (("/usr/local/file/a/x.txt".data.drop "/usr/local/file".data.length).dropWhile
        (· == '/')).takeWhile (fun c => c ≠ '/') :=
  ⟨(poolFor_claims "/usr/local/file" "/usr/local/file/a/x.txt").2.1,
   (poolFor_claims "/usr/local/file" "/usr/local/file/a/x.txt").2.2.2 (by decide)⟩

/-! ## C5: search bounds -/

/-- C5: for every query (abstracted by its scoring function) the
similarity search used by `Indexer.find` returns at most `k` hits, every
returned hit scores at or above the threshold, and the hits are ordered by
descending score.  `Indexer.find` instantiates `k` with `Config.TOP_K` and
the threshold with `Config.SCORE_THRESHOLD`. -/
theorem search_bounds (score : Chunk → Rat) (chunks : List Chunk) (k : Nat)
    (thr : Rat) :
    (vector_search score chunks k thr).length ≤ k ∧
    (∀ c ∈ vector_search score chunks k thr, thr ≤ score c) ∧
    List.Sorted (byScoreDesc score) (vector_search score chunks k thr) := by
  refine ⟨?_, ?_, ?_⟩
  · rw [vector_search, List.length_take]
    exact inf_le_left
  · intro c hc
    have h1 : c ∈ (chunks.filter (fun c => thr ≤ score c)).insertionSort
        (byScoreDesc score) := List.mem_of_mem_take hc
    have h2 : c ∈ chunks.filter (fun c => thr ≤ score c) :=
      (List.perm_insertionSort (byScoreDesc score) _).subset h1
    have h3 := (List.mem_filter.mp h2).2
    exact of_decide_eq_true h3
  · exact List.Pairwise.sublist (List.take_sublist _ _)
      (List.sorted_insertionSort (byScoreDesc score) _)

/-- Witness for C5 at `Config`'s `TOP_K` and `SCORE_THRESHOLD`, with the
membership premise discharged on a concrete hit. -/
theorem search_bounds_witness :
    (vector_search scoreEx chunksEx TOP_K SCORE_THRESHOLD).length ≤ TOP_K ∧
    SCORE_THRESHOLD ≤ scoreEx { file_path := "p", content := "hi" } :=
  ⟨(search_bounds scoreEx chunksEx TOP_K SCORE_THRESHOLD).1,
   (search_bounds scoreEx chunksEx TOP_K SCORE_THRESHOLD).2.1
     { file_path := "p", content := "hi" } (by decide)⟩

/-! ## C6: storage failure degrades to no-reindex -/

/-- C6: whenever the persistence layer raises during
`check_needs_indexing` — at the select or at a commit — the method returns
`no_need_reindexing` (after logging) instead of propagating the exception
or returning a reindex-triggering status. -/
theorem storage_failure_fail_safe (failAt : FailPoint)
    (store : List MinimaDoc) (fpath : String) (ts : Int)
    (h : failAt ≠ .noFail) :
    (check_needs_indexing_at failAt store fpath ts).2 = .no_need_reindexing := by
  cases failAt with
  | noFail => exact absurd rfl h
  | atSelect => rfl
  | atCommit =>
    simp only [check_needs_indexing_at]
    cases hsel : selectDoc store fpath with
    | none => rfl
    | some doc =>
      obtain ⟨fp, lus, its, st⟩ := doc
      cases lus with
      | none => rfl
      | some stored => by_cases hlt : stored < ts <;> simp [hlt]

/-- Witness for C6: a select-time failure on an empty store. -/
theorem storage_failure_fail_safe_witness :
    FailPoint.atSelect ≠ FailPoint.noFail ∧
    (check_needs_indexing_at .atSelect [] "a" 0).2 = .no_need_reindexing :=
  ⟨by decide, storage_failure_fail_safe .atSelect [] "a" 0 (by decide)⟩

/-! ## C10: find never raises -/

theorem ensure_pool_collections_of_exists (w : World) (pool : String)
    (h : collection_exists w.collections pool = true) :
    (ensure_pool w pool).collections = w.collections := by
  unfold ensure_pool
  by_cases hc : pool ∈ w.cached <;> simp [hc, h]

/-- C10: `Indexer.find` is total and, on each failure path, returns the
error dictionary rather than raising: an unknown pool whose collection does
not exist yields the error result and leaves the world untouched (no
collection is created); a successful search with zero hits yields exactly
`links = ∅, output = ""`; a raising search yields the error result. -/
theorem find_claims (container_path local_files_path : String)
    (score : Chunk → Rat) (searchFails : Bool) (w : World) (pool : String) :
    (pool ∉ w.cached →
      collection_exists w.collections pool = false →
      find container_path local_files_path score searchFails w pool =
        (w, .err ("Unable to find anything for the given query in pool " ++
          pool ++ ". The pool does not exist."))) ∧
    ((pool ∈ w.cached ∨ collection_exists w.collections pool = true) →
      searchFails = false →
      vector_search score (collChunks w.collections pool) TOP_K
        SCORE_THRESHOLD = [] →
      (find container_path local_files_path score searchFails w pool).2 =
        .ok [] "") ∧
    ((pool ∈ w.cached ∨ collection_exists w.collections pool = true) →
      searchFails = true →
      (find container_path local_files_path score searchFails w pool).2 =
        .err "Unable to find anything for the given query in pool \x7bpool\x7d") := by
  refine ⟨?_, ?_, ?_⟩
  · intro h1 h2
    simp [find, h1, h2]
  · intro hor hf hv
    by_cases hc : pool ∈ w.cached
    · simp [find, hc, hf, hv]
    · have hex : collection_exists w.collections pool = true := by
        rcases hor with h | h
        · exact absurd h hc
        · exact h
      have hcoll := ensure_pool_collections_of_exists w pool hex
      simp [find, hc, hex, hf, hcoll, hv]
  · intro hor hf
    by_cases hc : pool ∈ w.cached
    · simp [find, hc, hf]
    · have hex : collection_exists w.collections pool = true := by
        rcases hor with h | h
        · exact absurd h hc
        · exact h
      simp [find, hc, hex, hf]

/-- Witness for C10: a missing pool on the empty world, and the
empty-result and failing-search paths on a world with one cached pool. -/
theorem find_claims_witness :
    (find "/c" "/l" (fun _ => 0) false { } "nope" =
      ({ }, .err ("Unable to find anything for the given query in pool " ++
        "nope" ++ ". The pool does not exist."))) ∧
    ((find "/c" "/l" (fun _ => 0) false
        { collections := [("a", [])], cached := ["a"] } "a").2 = .ok [] "") ∧
    ((find "/c" "/l" (fun _ => 0) true
        { collections := [("a", [])], cached := ["a"] } "a").2 =
      .err "Unable to find anything for the given query in pool \x7bpool\x7d") :=
  ⟨(find_claims "/c" "/l" (fun _ => 0) false { } "nope").1
      (by decide) (by decide),
   (find_claims "/c" "/l" (fun _ => 0) false
      { collections := [("a", [])], cached := ["a"] } "a").2.1
      (Or.inl (by decide)) rfl (by decide),
   (find_claims "/c" "/l" (fun _ => 0) true
      { collections := [("a", [])], cached := ["a"] } "a").2.2
      (Or.inl (by decide)) rfl⟩

/-! ## C8: agent-loop transition rule -/

/-- C8: after the `agent` node appends its assistant message, the
conditional edge goes to `tools` iff that message requests at least one
tool call, and to the terminal end otherwise; in particular a first model
response with zero tool calls terminates the loop immediately with an
empty link set. -/
theorem agent_loop_transition (msgs : List Msg) (c : String)
    (tcs : List ToolCall) (container_path local_files_path q ans : String)
    (retrieve : String → Except Unit (List RDoc)) :
    (should_continue (msgs ++ [Msg.ai c tcs]) = .toTools ↔ tcs ≠ []) ∧
    (should_continue (msgs ++ [Msg.ai c tcs]) = .toEnd ↔ tcs = []) ∧
    run_agent_loop retrieve [(ans, [])] [Msg.human q] =
      .ok [Msg.human q, Msg.ai ans []] ∧
    invoke container_path local_files_path retrieve [(ans, [])] q =
      .ok ans [] := by
  have hlast := @List.getLast?_concat Msg (Msg.ai c tcs) msgs
  refine ⟨?_, ?_, rfl, rfl⟩
  · rw [should_continue, hlast]
    cases tcs <;> simp
  · rw [should_continue, hlast]
    cases tcs <;> simp

/-! ## C7: search failure during tool execution -/

/-- C7 counterexample: with one pending `search_documents` call whose
search raises, the tools node returns the exception — no tool-result
message (in particular none containing "no relevant documents found") is
produced — and `invoke` ends in the error dictionary, aborting the
conversation. -/
theorem tool_failure_cex :
    execute_tools retrieveFailEx [Msg.human "q", Msg.ai "" [toolCallEx]] =
      .error () ∧
    invoke "/c" "/l" retrieveFailEx
      [("", [toolCallEx]), ("ans", [])] "q" = .err :=
  ⟨rfl, rfl⟩

/-- C7 amended: a failure of the search capability during tool execution
propagates out of the tools node as an exception and is caught only by
`invoke`'s top-level handler, which returns the error dictionary; the
literal `"No relevant documents found."` tool result arises exactly when
the search succeeds with zero hits. -/
theorem tool_failure_aborts (retrieve : String → Except Unit (List RDoc))
    (msgs : List Msg) (c q : String) (tc : ToolCall)
    (rest : List (String × List ToolCall))
    (container_path local_files_path : String)
    (hname : tc.name = "search_documents")
    (hfail : retrieve tc.args = .error ()) :
    execute_tools retrieve (msgs ++ [Msg.ai c [tc]]) = .error () ∧
    invoke container_path local_files_path retrieve ((c, [tc]) :: rest) q =
      .err ∧
    search_documents (.ok []) = .ok (.text "No relevant documents found.") := by
  have hexec : ∀ ms : List Msg,
      execute_tools retrieve (ms ++ [Msg.ai c [tc]]) = .error () := by
    intro ms
    have hlast := @List.getLast?_concat Msg (Msg.ai c [tc]) ms
    unfold execute_tools
    rw [hlast]
    simp [List.foldlM, hname, hfail, search_documents]
  refine ⟨hexec msgs, ?_, rfl⟩
  unfold invoke run_agent_loop
  have h2 := hexec [Msg.human q]
  simp only [List.cons_append, List.nil_append] at h2 ⊢
  rw [show should_continue [Msg.human q, Msg.ai c [tc]] = .toTools from rfl]
  rw [h2]

/-- Witness for C7's amended theorem on a concrete failing search. -/
theorem tool_failure_aborts_witness :
    toolCallEx.name = "search_documents" ∧
    retrieveFailEx toolCallEx.args = .error () ∧
    invoke "/c2" "/l2" retrieveFailEx [("", [toolCallEx])] "q" = .err :=
  ⟨rfl, rfl,
   (tool_failure_aborts retrieveFailEx [] "" "q" toolCallEx [] "/c2" "/l2"
      rfl rfl).2.1⟩

/-! ## C9: link extraction at End -/

/-- C9 (refuted by the code): a run whose single search returns one
document ends with a tool-result message citing that document's path, yet
`invoke` returns an empty link set — the `ToolMessage` is constructed
without a `name`, so the link extractor's `msg.name == "search_documents"`
filter never matches.  The answer is still the most recent assistant
message without tool calls. -/
theorem invoke_links_always_empty_cex :
    run_agent_loop retrieveOkEx [("", [toolCallEx]), ("the answer", [])]
        [Msg.human "find the budget"] =
      .ok [Msg.human "find the budget", Msg.ai "" [toolCallEx],
        Msg.toolMsg
          (.formatted [(1, "/usr/local/file/a/docA.txt", "contents")]) "1"
          none,
        Msg.ai "the answer" []] ∧
    invoke "/usr/local/file" "/home" retrieveOkEx
        [("", [toolCallEx]), ("the answer", [])] "find the budget" =
      .ok "the answer" [] :=
  ⟨rfl, rfl⟩

/-! ## C2: indexing outcome is never recorded -/

theorem ensure_pool_store (w : World) (pool : String) :
    (ensure_pool w pool).store = w.store := by
  unfold ensure_pool
  by_cases hc : pool ∈ w.cached <;> simp [hc]

theorem remove_from_storage_store (container_path : String) (w : World)
    (files : List String) :
    (remove_from_storage container_path w files).store = w.store := by
  unfold remove_from_storage
  generalize w.cached = ps
  induction ps generalizing w with
  | nil => rfl
  | cons p ps ih =>
    rw [List.foldl_cons]
    rw [ih]
    by_cases h : (files.filter (fun fpath =>
        poolname_from_file_path container_path fpath == p)).isEmpty <;>
      simp [h]

theorem selectDoc_append_self (store : List MinimaDoc) (path : String)
    (ts : Int) (h : selectDoc store path = none) :
    selectDoc (store ++ [{ fpath := path, last_updated_seconds := some ts }])
        path =
      some { fpath := path, last_updated_seconds := some ts } := by
  rw [selectDoc_append, h, selectDoc_single]
  simp

/-- C2 (refuted by the code): processing a brand-new file leaves its state
store record exactly as `check_needs_indexing` created it — default status
`"uploaded"` and no recorded indexing time — whatever the loading outcome:
`Indexer.index` measures wall time but only logs it, and never calls
`update_file_status` or `update_indexing_time`. -/
theorem index_never_records_outcome (container_path : String)
    (supported : Bool) (loadResult : Except Unit (List String)) (w : World)
    (path : String) (ts : Int) (h : selectDoc w.store path = none) :
    selectDoc (index container_path supported loadResult w path ts).store
        path =
      some { fpath := path, last_updated_seconds := some ts,
             indexing_time_seconds := none, status := "uploaded" } := by
  have hens := ensure_pool_store w (poolname_from_file_path container_path path)
  have hcheck : check_needs_indexing
      (ensure_pool w (poolname_from_file_path container_path path)).store
      path ts =
      (w.store ++ [{ fpath := path, last_updated_seconds := some ts }],
       .new_file) := by
    unfold check_needs_indexing check_needs_indexing_at
    rw [hens, h]
  have happ := selectDoc_append_self w.store path ts h
  cases supported with
  | false => simp [index, hcheck, happ]
  | true =>
    cases loadResult with
    | error e => simp [index, hcheck, happ]
    | ok contents =>
      by_cases hemp : contents.isEmpty <;> simp [index, hcheck, happ, hemp]

/-- Witness for C2 on a fresh world and a successfully loaded file. -/
theorem index_never_records_outcome_witness :
    selectDoc ({ } : World).store "/usr/local/file/a/x.txt" = none ∧
    selectDoc (index "/usr/local/file" true (.ok ["c"]) { }
        "/usr/local/file/a/x.txt" 5).store "/usr/local/file/a/x.txt" =
      some { fpath := "/usr/local/file/a/x.txt",
             last_updated_seconds := some 5,
             indexing_time_seconds := none, status := "uploaded" } :=
  ⟨rfl, index_never_records_outcome "/usr/local/file" true (.ok ["c"]) { }
    "/usr/local/file/a/x.txt" 5 rfl⟩

/-! ## C3: purge and the conjoined delete filter -/

/-- C3 (refuted by the code): purging with an empty observed set returns
exactly the stored set `S \ ∅` and deletes both records from the state
store, but the vector chunks of both removed files survive: the qdrant
delete filter conjoins the two path-equality conditions (`must` is a
conjunction), so it matches no point. -/
theorem purge_keeps_chunks_cex :
    (find_removed_files purgeWorldEx.store []).2 =
      ["/usr/local/file/a/x.txt", "/usr/local/file/a/y.txt"] ∧
    (purge "/usr/local/file" purgeWorldEx []).store = [] ∧
    (purge "/usr/local/file" purgeWorldEx []).collections =
      purgeWorldEx.collections :=
  ⟨rfl, rfl, rfl⟩

/-! ## C1: check_needs_indexing and the monotonic reindex invariant -/

theorem selectDoc_update (store : List MinimaDoc) (fpath : String)
    (ts : Int) :
    selectDoc (store.map (fun d =>
        if d.fpath == fpath then { d with last_updated_seconds := some ts }
        else d)) fpath =
      (selectDoc store fpath).map
        (fun d => { d with last_updated_seconds := some ts }) := by
  unfold selectDoc
  rw [List.find?_map]
  have hp : ((fun d : MinimaDoc => d.fpath == fpath) ∘
      (fun d => if d.fpath == fpath then
        { d with last_updated_seconds := some ts } else d)) =
      (fun d : MinimaDoc => d.fpath == fpath) := by
    funext d
    by_cases hd : d.fpath = fpath <;> simp [hd]
  rw [hp]
  cases hfind : store.find? (fun d => d.fpath == fpath) with
  | none => rfl
  | some d =>
    have hde : d.fpath = fpath := by simpa using List.find?_some hfind
    simp [hde]

/-- Equation for `check_needs_indexing` when no record exists. -/
theorem check_of_none (store : List MinimaDoc) (fpath : String) (ts : Int)
    (hsel : selectDoc store fpath = none) :
    check_needs_indexing store fpath ts =
      (store ++ [{ fpath := fpath, last_updated_seconds := some ts }],
       .new_file) := by
  simp only [check_needs_indexing, check_needs_indexing_at, hsel]

/-- Equation for `check_needs_indexing` when a record with a timestamp
exists. -/
theorem check_of_some (store : List MinimaDoc) (fpath : String) (ts : Int)
    (doc : MinimaDoc) (t : Int) (hsel : selectDoc store fpath = some doc)
    (hlus : doc.last_updated_seconds = some t) :
    check_needs_indexing store fpath ts =
      if t < ts then
        (store.map (fun d =>
          if d.fpath == fpath then
            { d with last_updated_seconds := some ts } else d),
         .need_reindexing)
      else (store, .no_need_reindexing) := by
  simp only [check_needs_indexing, check_needs_indexing_at, hsel, hlus]

/-- One `check_needs_indexing` step, characterised against the claim's
trigger condition: the returned status, the stored timestamp after the
call, and preservation of record well-formedness. -/
theorem check_step (store : List MinimaDoc) (fpath : String) (ts : Int)
    (hgood : goodAt store fpath) :
    (check_needs_indexing store fpath ts).2 =
      (if specTrigHead (storedTs store fpath) ts then
        (if storedTs store fpath = none then .new_file
         else .need_reindexing)
       else .no_need_reindexing) ∧
    storedTs (check_needs_indexing store fpath ts).1 fpath =
      (if specTrigHead (storedTs store fpath) ts then some ts
       else storedTs store fpath) ∧
    goodAt (check_needs_indexing store fpath ts).1 fpath := by
  cases hsel : selectDoc store fpath with
  | none =>
    have heq := check_of_none store fpath ts hsel
    have hst : storedTs store fpath = none := by simp [storedTs, hsel]
    have happ := selectDoc_append_self store fpath ts hsel
    refine ⟨?_, ?_, ?_⟩
    · rw [heq, hst]
      simp [specTrigHead]
    · rw [heq, hst]
      simp [specTrigHead, storedTs, happ]
    · intro d hd
      rw [heq] at hd
      replace hd : selectDoc (store ++
          [{ fpath := fpath, last_updated_seconds := some ts }]) fpath =
          some d := hd
      rw [happ] at hd
      cases hd
      simp
  | some doc =>
    have hne := hgood doc hsel
    cases hlus : doc.last_updated_seconds with
    | none => exact absurd hlus hne
    | some t =>
      have heq := check_of_some store fpath ts doc t hsel hlus
      have hst : storedTs store fpath = some t := by
        simp [storedTs, hsel, hlus]
      by_cases hlt : t < ts
      · refine ⟨?_, ?_, ?_⟩
        · rw [heq, if_pos hlt, hst]
          simp [specTrigHead, hlt]
        · rw [heq, if_pos hlt]
          have hupd : storedTs (store.map (fun d =>
              if d.fpath == fpath then
                { d with last_updated_seconds := some ts } else d)) fpath =
              some ts := by
            unfold storedTs
            rw [selectDoc_update, hsel]
            rfl
          have hrhs : (if specTrigHead (storedTs store fpath) ts then some ts
              else storedTs store fpath) = some ts := by
            rw [hst]
            simp [specTrigHead, hlt]
          rw [hrhs]
          exact hupd
        · intro d hd
          rw [heq, if_pos hlt] at hd
          replace hd : selectDoc (store.map (fun d =>
              if d.fpath == fpath then
                { d with last_updated_seconds := some ts } else d)) fpath =
              some d := hd
          rw [selectDoc_update, hsel] at hd
          rw [Option.map_some'] at hd
          cases hd
          simp
      · refine ⟨?_, ?_, ?_⟩
        · rw [heq, if_neg hlt, hst]
          simp [specTrigHead, hlt]
        · rw [heq, if_neg hlt, hst]
          simp [specTrigHead, hlt, hst]
        · intro d hd
          rw [heq, if_neg hlt] at hd
          replace hd : selectDoc store fpath = some d := hd
          rw [hsel] at hd
          cases hd
          exact hne

/-- The per-call trigger characterisation extends to whole call
sequences. -/
theorem run_checks_spec (fpath : String) (tss : List Int) :
    ∀ store : List MinimaDoc, goodAt store fpath →
      (run_checks fpath store tss).2.map
          (fun s => decide (s ≠ IndexingStatus.no_need_reindexing)) =
        specTriggers (storedTs store fpath) tss := by
  induction tss with
  | nil => intro store _; rfl
  | cons ts rest ih =>
    intro store hgood
    obtain ⟨h1, h2, h3⟩ := check_step store fpath ts hgood
    rw [show run_checks fpath store (ts :: rest) =
      ((run_checks fpath (check_needs_indexing store fpath ts).1 rest).1,
        (check_needs_indexing store fpath ts).2 ::
          (run_checks fpath (check_needs_indexing store fpath ts).1 rest).2)
      from rfl]
    rw [show specTriggers (storedTs store fpath) (ts :: rest) =
      specTrigHead (storedTs store fpath) ts ::
        specTriggers (if specTrigHead (storedTs store fpath) ts then some ts
          else storedTs store fpath) rest from rfl]
    rw [List.map_cons]
    congr 1
    · rw [h1]
      by_cases htrig : specTrigHead (storedTs store fpath) ts
      · rw [if_pos htrig, htrig]
        by_cases hn : storedTs store fpath = none <;> simp [hn]
      · rw [if_neg htrig]
        simp at htrig
        rw [htrig]
        simp
    · rw [ih _ h3, h2]

/-- C1: `check_needs_indexing` creates a record with the given timestamp
and returns `new_file` when none exists; when a record exists and the
incoming timestamp is strictly greater, it advances the stored timestamp
and returns `need_reindexing`; otherwise it returns `no_need_reindexing`
and leaves the store untouched.  Consequently, over any sequence of calls
for one path, a `new_file`/`need_reindexing` result occurs iff the
submitted timestamp is strictly greater than the last stored one. -/
theorem check_needs_indexing_claims (store : List MinimaDoc)
    (fpath : String) (ts : Int) (hgood : goodAt store fpath) :
    (selectDoc store fpath = none →
      (check_needs_indexing store fpath ts).2 = .new_file ∧
      selectDoc (check_needs_indexing store fpath ts).1 fpath =
        some { fpath := fpath, last_updated_seconds := some ts }) ∧
    (∀ d t, selectDoc store fpath = some d →
      d.last_updated_seconds = some t →
      (t < ts →
        (check_needs_indexing store fpath ts).2 = .need_reindexing ∧
        selectDoc (check_needs_indexing store fpath ts).1 fpath =
          some { d with last_updated_seconds := some ts }) ∧
      (¬ t < ts →
        check_needs_indexing store fpath ts = (store, .no_need_reindexing))) ∧
    (∀ tss : List Int,
      (run_checks fpath store tss).2.map
          (fun s => decide (s ≠ IndexingStatus.no_need_reindexing)) =
        specTriggers (storedTs store fpath) tss) := by
  refine ⟨?_, ?_, fun tss => run_checks_spec fpath tss store hgood⟩
  · intro hsel
    rw [check_of_none store fpath ts hsel]
    exact ⟨rfl, selectDoc_append_self store fpath ts hsel⟩
  · intro d t hsel hlus
    have heq := check_of_some store fpath ts d t hsel hlus
    constructor
    · intro hlt
      rw [heq, if_pos hlt]
      refine ⟨rfl, ?_⟩
      show selectDoc (store.map _) fpath = _
      rw [selectDoc_update store fpath ts, hsel]
      rfl
    · intro hlt
      rw [heq, if_neg hlt]

/-- Witness for C1: an empty store satisfies the well-formedness
hypothesis, the first call creates the record, and a three-call sequence
matches the claim's trigger trace. -/
theorem check_needs_indexing_claims_witness :
    (check_needs_indexing [] "a" 3).2 = .new_file ∧
    (run_checks "a" [] [3, 2, 5]).2.map
        (fun s => decide (s ≠ IndexingStatus.no_need_reindexing)) =
      specTriggers none [3, 2, 5] ∧
    specTriggers none [3, 2, 5] = [true, false, true] :=
  ⟨((check_needs_indexing_claims [] "a" 3
      (fun d hd => by simp [selectDoc] at hd)).1 rfl).1,
   (check_needs_indexing_claims [] "a" 0
      (fun d hd => by simp [selectDoc] at hd)).2.2 [3, 2, 5],
   by decide⟩

end Minima
